import Mathlib

/-!
Verification of the training orchestrator of `train.py` (pytorch-transformer).

The source is shallowly embedded: the two closures `training_update_function`
and `validation_inference_function` become explicit state transformers over an
abstract collaborator environment (`Env`), the PyTorch `StepLR` schedule
becomes a counter plus the closed-form learning-rate formula, the ignite
`Trainer` event loop becomes a concrete event trace, and the hooks become
functions on a modelled file system.  External collaborator behaviour that is
not in the repository source (the ignite trainer, the `hooks` module,
`torchtext` vocabularies, `nn.CrossEntropyLoss`, `StepLR`) is modelled from
the specification and marked as such in the doc comments.
-/

namespace TrainPy

/-- A mini-batch: rows of source and target token ids (`batch.src`,
`batch.trg` in `train.py`), `batch_first` layout. -/
structure Batch where
  src : List (List ℕ)
  trg : List (List ℕ)

/-- Module mode toggled by `transformer.train()` / `transformer.eval()`. -/
inductive Mode where
  | trainMode
  | evalMode
deriving DecidableEq, Repr

/-- The external collaborators of the update/validation closures, abstracted:
the transformer forward pass (returning `(softmaxed_predictions, predictions)`
exactly as unpacked on line 72 of `train.py`), the gradient produced by
`loss.backward()`, one Adam `opt.step()` given the current learning rate, and
the per-position cross entropy used inside `nn.CrossEntropyLoss`. -/
structure Env (P G OS O : Type) where
  forwardFn : P → Batch → O × List (List (List ℚ))
  gradFn : P → Batch → G
  adamStep : OS → P → ℚ → G → OS × P
  ce : List ℚ → ℕ → ℚ

/-- Mutable state threaded through the two closures of `run`: module mode,
model parameters, accumulated gradients, Adam internal state, and the
`StepLR` step counter (`last_epoch`, which the scheduler constructor leaves
at `0` after its implicit initial `step(0)`). -/
structure RunState (P G OS : Type) where
  mode : Mode
  params : P
  grads : Option G
  optState : OS
  lastEpoch : ℕ

/-- Static configuration of `StepLR(opt, step_size=decay_step,
gamma=decay_percent)` plus the optimizer's base learning rate. -/
structure LrConfig where
  decay_step : ℕ
  decay_percent : ℚ
  baseLr : ℚ

/-- Modelled from the spec: PyTorch `StepLR` sets
`lr = base_lr * gamma ^ (last_epoch // step_size)` each time `step()` is
called; `last_epoch` counts the `step()` calls made since construction. -/
def stepLrValue (cfg : LrConfig) (lastEpoch : ℕ) : ℚ :=
  cfg.baseLr * cfg.decay_percent ^ (lastEpoch / cfg.decay_step)

/-- Modelled from the spec: `nn.CrossEntropyLoss()` with default arguments
averages the per-position cross entropy `ce` over every row of the flattened
prediction/target pair; there is no `ignore_index`, so no position is
excluded. -/
def crossEntropyLoss (ce : List ℚ → ℕ → ℚ) (preds : List (List ℚ))
    (tgts : List ℕ) : ℚ :=
  (((preds.zip tgts).map fun pt => ce pt.1 pt.2).sum) / ((preds.zip tgts).length : ℚ)

/-- The individual operations performed by the two closures, in the order the
embedding executes them; recorded so ordering claims can be stated. -/
inductive Action where
  | setTrain
  | setEval
  | lrStep
  | zeroGrad
  | forwardPass
  | computeLoss
  | backwardPass
  | optStep
deriving DecidableEq, Repr

/-- The effect of `opt.step()`: apply one Adam update with the learning rate
currently installed by the scheduler; with no accumulated gradients the
parameters are unchanged. -/
def optApply {P G OS O : Type} (env : Env P G OS O) (cfg : LrConfig)
    (s : RunState P G OS) : RunState P G OS :=
  match s.grads with
  | none => s
  | some g =>
      let r := env.adamStep s.optState s.params (stepLrValue cfg s.lastEpoch) g
      { s with optState := r.1, params := r.2 }

/-- Embedding of `training_update_function` (train.py lines 67-82): set train
mode, `lr_decay.step()`, `opt.zero_grad()`, forward pass, flatten predictions
and target, compute the loss, `loss.backward()`, `opt.step()`, and return
`(softmaxed_predictions, loss.data[0])`.  The result is the new state, the
trace of operations in execution order, and the returned pair. -/
def training_update_function {P G OS O : Type} (env : Env P G OS O)
    (cfg : LrConfig) (st : RunState P G OS) (batch : Batch) :
    RunState P G OS × List Action × O × ℚ :=
  let s1 := { st with mode := Mode.trainMode }
  let s2 := { s1 with lastEpoch := s1.lastEpoch + 1 }
  let s3 : RunState P G OS := { s2 with grads := none }
  let fw := env.forwardFn s3.params batch
  let softmaxed_predictions := fw.1
  let predictions := fw.2
  let flattened_predictions := predictions.flatten
  let flattened_target := batch.trg.flatten
  let loss := crossEntropyLoss env.ce flattened_predictions flattened_target
  let g := env.gradFn s3.params batch
  let s4 := { s3 with grads := some g }
  let s5 := optApply env cfg s4
  (s5,
   [Action.setTrain, Action.lrStep, Action.zeroGrad, Action.forwardPass,
    Action.computeLoss, Action.backwardPass, Action.optStep],
   softmaxed_predictions, loss)

/-- Embedding of `validation_inference_function` (train.py lines 84-93): set
eval mode, forward pass, flatten, compute the loss, return `loss.data[0]`.
No gradient is computed, no optimizer step is taken. -/
def validation_inference_function {P G OS O : Type} (env : Env P G OS O)
    (st : RunState P G OS) (batch : Batch) :
    RunState P G OS × List Action × ℚ :=
  let s1 := { st with mode := Mode.evalMode }
  let fw := env.forwardFn s1.params batch
  let flattened_predictions := fw.2.flatten
  let flattened_target := batch.trg.flatten
  let loss := crossEntropyLoss env.ce flattened_predictions flattened_target
  (s1, [Action.setEval, Action.forwardPass, Action.computeLoss], loss)

/-- Iterated training updates on a fixed batch, for scenario statements. -/
def iterUpdate {P G OS O : Type} (env : Env P G OS O) (cfg : LrConfig)
    (batch : Batch) : ℕ → RunState P G OS → RunState P G OS
  | 0, st => st
  | k + 1, st => iterUpdate env cfg batch k (training_update_function env cfg st batch).1

/-- Lifecycle events dispatched by the ignite `Trainer` to registered
handlers; `iterationCompleted` carries `trainer.current_iteration`. -/
inductive Event where
  | trainingStarted
  | iterationCompleted (iteration : ℕ)
  | validationCompleted
  | trainingCompleted
deriving DecidableEq, Repr

/-- Modelled from the spec: the part of one epoch's event stream after
`TRAINING_STARTED` — one `TRAINING_ITERATION_COMPLETED` per training batch
(global counter continuing from `it0`), then, with per-epoch validation
enabled, one `VALIDATION_COMPLETED` per validation batch. -/
def epochTrace (it0 n v : ℕ) : List Event :=
  ((List.range n).map fun j => Event.iterationCompleted (it0 + j + 1)) ++
    List.replicate v Event.validationCompleted

/-- Event stream of `e` consecutive epochs, `n` training and `v` validation
batches each, starting from global iteration `it0`. -/
def epochsTrace (n v : ℕ) : ℕ → ℕ → List Event
  | _, 0 => []
  | it0, e + 1 => epochTrace it0 n v ++ epochsTrace n v (it0 + n) e

/-- Modelled from the spec: the full event stream of
`trainer.run(max_epochs=E, validate_every_epoch=True)` — one
`TRAINING_STARTED`, the epochs' iteration/validation events with a global
iteration counter never reset, and one final `TRAINING_COMPLETED`. -/
def runEvents (E n v : ℕ) : List Event :=
  Event.trainingStarted :: (epochsTrace n v 0 E ++ [Event.trainingCompleted])

/-- The iteration counters carried by the `TRAINING_ITERATION_COMPLETED`
events of a trace, in order. -/
def iters (t : List Event) : List ℕ :=
  t.filterMap fun e =>
    match e with
    | Event.iterationCompleted i => some i
    | _ => none

/-- A modelled file system: checkpoint path to stored parameter snapshot. -/
def FileSys (P : Type) : Type := String → Option P

/-- Modelled from the spec: `hooks.save_checkpoint_hook` — persist the
current model parameters to the configured path, overwriting any prior
checkpoint stored there. -/
def save_checkpoint_hook {P : Type} (p : P) (path : String) (fs : FileSys P) :
    FileSys P :=
  fun q => if q = path then some p else fs q

/-- Modelled from the spec: `hooks.restore_checkpoint_hook` — if a checkpoint
file exists at the configured path, load it into the model's parameters;
absence of a file is not an error and leaves the parameters unchanged. -/
def restore_checkpoint_hook {P : Type} (path : String) (fs : FileSys P)
    (p : P) : P :=
  match fs path with
  | some q => q
  | none => p

/-- State threaded through the save-checkpoint handlers over a run: the file
system, the last seen `trainer.current_iteration`, and the log of performed
writes as (iteration, parameters) pairs. -/
structure CkptState (P : Type) where
  fs : FileSys P
  iter : ℕ
  writes : List (ℕ × P)

/-- One event's effect of the two save-checkpoint registrations of `run`
(train.py lines 107-111 and 122-125): on `TRAINING_ITERATION_COMPLETED`,
write when `trainer.current_iteration % save_interval == 0`; on
`TRAINING_COMPLETED`, write unconditionally.  `paramsAt i` abstracts the
model parameters after `i` updates. -/
def ckptStep {P : Type} (saveInterval : ℕ) (path : String) (paramsAt : ℕ → P)
    (st : CkptState P) : Event → CkptState P
  | Event.iterationCompleted i =>
      let st1 : CkptState P := { st with iter := i }
      if i % saveInterval == 0 then
        { st1 with fs := save_checkpoint_hook (paramsAt i) path st1.fs,
                   writes := st1.writes ++ [(i, paramsAt i)] }
      else st1
  | Event.trainingCompleted =>
      { st with fs := save_checkpoint_hook (paramsAt st.iter) path st.fs,
                writes := st.writes ++ [(st.iter, paramsAt st.iter)] }
  | _ => st

/-- Save-checkpoint behaviour over a whole event trace. -/
def ckptRun {P : Type} (saveInterval : ℕ) (path : String) (paramsAt : ℕ → P)
    (fs0 : FileSys P) (t : List Event) : CkptState P :=
  t.foldl (ckptStep saveInterval path paramsAt) { fs := fs0, iter := 0, writes := [] }

/-- State of the training moving-average logger: the trainer's
`training_history` (entries are the update function's returned pairs) and the
emitted log lines as (iteration, reported average) pairs. -/
structure LogState (O : Type) where
  history : List (O × ℚ)
  emitted : List (ℕ × ℚ)

/-- Modelled from the spec: the simple-moving-average value over a history —
the arithmetic mean of the last `W` recorded values (all of them when fewer
than `W` have been recorded). -/
def sma (W : ℕ) (vals : List ℚ) : ℚ :=
  let w := vals.drop (vals.length - W)
  w.sum / (w.length : ℚ)

/-- Modelled from the spec: one event's effect of the trainer history plus
`log_training_simple_moving_average` as registered on train.py lines 99-106 —
after each update the returned pair is appended to `training_history`; on
`TRAINING_ITERATION_COMPLETED`, when `should_log` holds
(`trainer.current_iteration % log_interval == 0`), the handler recomputes the
moving average over the last `window_size = W` entries (each transformed by
`history_transform`, here the pair's last component, the loss) and emits it.
`histEntry i` abstracts the pair returned by update `i`. -/
def logStep {O : Type} (logInterval W : ℕ) (histEntry : ℕ → O × ℚ)
    (st : LogState O) : Event → LogState O
  | Event.iterationCompleted i =>
      let st1 : LogState O := { st with history := st.history ++ [histEntry i] }
      if i % logInterval == 0 then
        { st1 with emitted :=
            st1.emitted ++ [(i, sma W (st1.history.map fun h => h.2))] }
      else st1
  | _ => st

/-- Logger behaviour over a whole event trace. -/
def logRun {O : Type} (logInterval W : ℕ) (histEntry : ℕ → O × ℚ)
    (t : List Event) : LogState O :=
  t.foldl (logStep logInterval W histEntry) { history := [], emitted := [] }

/-- Splitting a character list at commas, as Python's `s.split(",")` does:
every comma ends a piece, so empty pieces are kept. -/
def splitComma : List Char → List Char → List (List Char)
  | [], acc => [acc.reverse]
  | c :: cs, acc =>
      if c = ',' then acc.reverse :: splitComma cs []
      else splitComma cs (c :: acc)

/-- Numeric value of a decimal digit character, `none` otherwise. -/
def digitVal (c : Char) : Option ℕ :=
  if c.isDigit then some (c.toNat - 48) else none

/-- Accumulating decimal parse of a digit string; any non-digit fails. -/
def parseNatAux : List Char → ℕ → Option ℕ
  | [], acc => some acc
  | c :: cs, acc =>
      match digitVal c with
      | none => none
      | some d => parseNatAux cs (acc * 10 + d)

/-- Python's `int` on a stripped literal: an optional minus sign followed by
at least one decimal digit; anything else raises, modelled as `none`. -/
def parseIntChars : List Char → Option ℤ
  | [] => none
  | '-' :: cs =>
      match cs with
      | [] => none
      | _ => (parseNatAux cs 0).map fun m => -(m : ℤ)
  | cs => (parseNatAux cs 0).map fun m => (m : ℤ)

/-- Embedding of the unit-list parsing on train.py lines 200-201:
`[int(unit) for unit in s.split(",")]`; a piece that is not an integer
literal makes `int` raise, modelled as `none`. -/
def parseUnits (s : String) : Option (List ℤ) :=
  (splitComma s.data []).mapM parseIntChars

/-- The command-line values relevant to startup validation. -/
structure MainConfig where
  encoder_units : String
  decoder_units : String
  log_interval : ℕ
  save_interval : ℕ
  compare_interval : ℕ

/-- Startup of `__main__` (train.py lines 198-216): both unit lists are
parsed before `run` is entered; nothing validates the interval values. -/
def mainStartup (cfg : MainConfig) : Option (List ℤ × List ℤ) :=
  match parseUnits cfg.encoder_units, parseUnits cfg.decoder_units with
  | some eu, some du => some (eu, du)
  | _, _ => none

/-- Python's `%` on integers raises `ZeroDivisionError` when the modulus is
zero; modelled as `none`. -/
def pymod (a b : ℕ) : Option ℕ :=
  if b = 0 then none else some (a % b)

/-- Evaluation of the three cadence lambdas of `run` (train.py lines 105,
111 and 116) at `trainer.current_iteration = i`, in registration order:
`i % log_interval`, `i % save_interval`, `i % compare_interval`; the first
zero modulus raises. -/
def hookEval (logInterval saveInterval compareInterval i : ℕ) : Option Bool :=
  match pymod i logInterval with
  | none => none
  | some _ =>
      match pymod i saveInterval with
      | none => none
      | some _ =>
          match pymod i compareInterval with
          | none => none
          | some _ => some true

/-- Run the event trace evaluating the cadence predicates at every
`TRAINING_ITERATION_COMPLETED`; an exception aborts the run, and the error
value records how many training batches had been processed by then. -/
def runChecked (logInterval saveInterval compareInterval : ℕ) :
    List Event → Except ℕ Unit
  | [] => Except.ok ()
  | Event.iterationCompleted i :: rest =>
      match hookEval logInterval saveInterval compareInterval i with
      | none => Except.error i
      | some _ => runChecked logInterval saveInterval compareInterval rest
  | _ :: rest => runChecked logInterval saveInterval compareInterval rest

/-- Observable fate of one program invocation. -/
inductive RunOutcome where
  | startupFailure
  | hookFailure (batchesProcessed : ℕ)
  | completed
deriving DecidableEq, Repr

/-- The whole program: parse the unit lists at startup (failing before any
batch), then drive the event loop, where a cadence-predicate exception
aborts the run mid-training. -/
def programRun (cfg : MainConfig) (E n v : ℕ) : RunOutcome :=
  match mainStartup cfg with
  | none => RunOutcome.startupFailure
  | some _ =>
      match runChecked cfg.log_interval cfg.save_interval cfg.compare_interval
          (runEvents E n v) with
      | Except.error i => RunOutcome.hookFailure i
      | Except.ok _ => RunOutcome.completed

/-- Modelled from the spec: a torchtext vocabulary — `freqs` is the
frequency table of every distinct token of the corpus (the `Counter` built
before any cutoff), while `itos` keeps only tokens of frequency at least
`min_freq`, capped at `max_size` entries. -/
structure Vocab where
  freqs : List (ℕ × ℕ)
  itos : List ℕ

/-- Modelled from the spec: `Field.build_vocab(corpus, min_freq, max_size)`
(train.py lines 35-36): the raw frequency table is over the whole corpus;
`min_freq` and `max_size` filter only the `itos` index. -/
def build_vocab (corpus : List (List ℕ)) (min_freq max_size : ℕ) : Vocab :=
  let toks := corpus.flatten
  let freqs := toks.dedup.map fun t => (t, (toks.filter fun x => x = t).length)
  { freqs := freqs
    itos := ((freqs.filter fun p => min_freq ≤ p.2).map Prod.fst).take max_size }

/-- Embedding of `encoder_vocab_size = len(source.vocab.freqs)` (train.py
lines 38-39, identically for the decoder side). -/
def vocab_size_arg (corpus : List (List ℕ)) (min_freq max_size : ℕ) : ℕ :=
  (build_vocab corpus min_freq max_size).freqs.length

/-- The save-checkpoint handler's effect restricted to one
`TRAINING_ITERATION_COMPLETED` event. -/
def ckptIter {P : Type} (saveInterval : ℕ) (path : String) (paramsAt : ℕ → P)
    (st : CkptState P) (i : ℕ) : CkptState P :=
  ckptStep saveInterval path paramsAt st (Event.iterationCompleted i)

/-- The logger's effect restricted to one `TRAINING_ITERATION_COMPLETED`
event. -/
def logIter {O : Type} (logInterval W : ℕ) (histEntry : ℕ → O × ℚ)
    (st : LogState O) (i : ℕ) : LogState O :=
  logStep logInterval W histEntry st (Event.iterationCompleted i)

/-- Degenerate concrete collaborator environment used for witnesses. -/
def envU : Env Unit Unit Unit Unit :=
  { forwardFn := fun _ _ => ((), [])
    gradFn := fun _ _ => ()
    adamStep := fun s p _ _ => (s, p)
    ce := fun _ _ => 0 }

/-- Fresh concrete run state (scheduler counter 0) used for witnesses. -/
def stU : RunState Unit Unit Unit :=
  { mode := Mode.evalMode, params := (), grads := none, optState := (), lastEpoch := 0 }

/-- Small concrete batch used for witnesses. -/
def bU : Batch := ⟨[[0]], [[0]]⟩

/-- Concrete collaborator environment whose softmax-normalized forward
output differs from its raw forward output. -/
def envC : Env Unit Unit Unit (List (List (List ℚ))) :=
  { forwardFn := fun _ _ => ([[[1]]], [[[2]]])
    gradFn := fun _ _ => ()
    adamStep := fun s p _ _ => (s, p)
    ce := fun _ _ => 0 }

/-- Fresh concrete run state over `envC`'s state types. -/
def stC : RunState Unit Unit Unit :=
  { mode := Mode.evalMode, params := (), grads := none, optState := (), lastEpoch := 0 }

/-- Concrete environment with one batch row of two positions, used to
witness the loss shape: raw predictions `[[[1],[2]]]`, per-position cross
entropy summing the score vector with the target id. -/
def envW : Env Unit Unit Unit Unit :=
  { forwardFn := fun _ _ => ((), [[[1], [2]]])
    gradFn := fun _ _ => ()
    adamStep := fun s p _ _ => (s, p)
    ce := fun vec t => vec.sum + (t : ℚ) }

/-- Concrete batch with one target row of two positions. -/
def bW : Batch := ⟨[[9, 9]], [[5, 6]]⟩

/-- Concrete history entry function (loss of iteration `i` is `i`). -/
def histU : ℕ → Unit × ℚ := fun i => ((), (i : ℚ))

/-! Helper lemmas about the event trace. -/

theorem iters_append (s t : List Event) : iters (s ++ t) = iters s ++ iters t :=
  List.filterMap_append _ _ _

theorem iters_epochTrace (it0 n v : ℕ) :
    iters (epochTrace it0 n v) = List.range' (it0 + 1) n := by
  have hmap : ((List.range n).map fun j => it0 + j + 1) = List.range' (it0 + 1) n := by
    rw [List.range'_eq_map_range]
    apply List.map_congr_left
    intro j _
    omega
  have hrep : iters (List.replicate v Event.validationCompleted) = [] := by
    induction v with
    | zero => rfl
    | succ k ih => simp [iters, List.replicate_succ, List.filterMap_cons] at ih ⊢
  calc iters (epochTrace it0 n v)
      = iters ((List.range n).map fun j => Event.iterationCompleted (it0 + j + 1)) ++
          iters (List.replicate v Event.validationCompleted) := iters_append _ _
    _ = List.range' (it0 + 1) n := by
        rw [hrep, List.append_nil, iters, List.filterMap_map]
        show List.filterMap (fun j => some (it0 + j + 1)) (List.range n) = _
        rw [show (fun j => some (it0 + j + 1)) =
              some ∘ (fun j => it0 + j + 1) from rfl,
          List.filterMap_eq_map]
        exact hmap

theorem iters_epochsTrace (n v : ℕ) :
    ∀ e it0, iters (epochsTrace n v it0 e) = List.range' (it0 + 1) (e * n) := by
  intro e
  induction e with
  | zero => intro it0; simp [epochsTrace, iters]
  | succ k ih =>
      intro it0
      rw [epochsTrace, iters_append, iters_epochTrace, ih]
      have : it0 + n + 1 = (it0 + 1) + n := by omega
      rw [this, List.range'_append_1]
      congr 1
      ring

theorem started_notin_epochTrace (it0 n v : ℕ) :
    Event.trainingStarted ∉ epochTrace it0 n v := by
  simp [epochTrace, List.mem_append, List.mem_map, List.mem_replicate]

theorem completed_notin_epochTrace (it0 n v : ℕ) :
    Event.trainingCompleted ∉ epochTrace it0 n v := by
  simp [epochTrace, List.mem_append, List.mem_map, List.mem_replicate]

theorem started_notin_epochsTrace (n v : ℕ) :
    ∀ e it0, Event.trainingStarted ∉ epochsTrace n v it0 e := by
  intro e
  induction e with
  | zero => intro it0; simp [epochsTrace]
  | succ k ih =>
      intro it0
      rw [epochsTrace]
      simp only [List.mem_append]
      rintro (h | h)
      · exact started_notin_epochTrace it0 n v h
      · exact ih (it0 + n) h

theorem completed_notin_epochsTrace (n v : ℕ) :
    ∀ e it0, Event.trainingCompleted ∉ epochsTrace n v it0 e := by
  intro e
  induction e with
  | zero => intro it0; simp [epochsTrace]
  | succ k ih =>
      intro it0
      rw [epochsTrace]
      simp only [List.mem_append]
      rintro (h | h)
      · exact completed_notin_epochTrace it0 n v h
      · exact ih (it0 + n) h

/-- C6: for every configured `max_epochs = E` (with `n` training and `v`
validation batches per epoch), the run's event trace contains exactly one
`TRAINING_STARTED` and exactly one `TRAINING_COMPLETED`, with all
`TRAINING_ITERATION_COMPLETED` events strictly between them; the global
iteration counters of those events are exactly `1, 2, ..., E*n` — strictly
increasing, never reset at epoch boundaries, and at each event equal to the
total number of training batches processed so far. -/
theorem training_run_event_protocol (E n v : ℕ) :
    (runEvents E n v).count Event.trainingStarted = 1 ∧
    (runEvents E n v).count Event.trainingCompleted = 1 ∧
    (∃ mid, runEvents E n v =
        Event.trainingStarted :: (mid ++ [Event.trainingCompleted]) ∧
      Event.trainingStarted ∉ mid ∧ Event.trainingCompleted ∉ mid) ∧
    iters (runEvents E n v) = List.range' 1 (E * n) ∧
    List.Pairwise (· < ·) (iters (runEvents E n v)) := by
  have hs := started_notin_epochsTrace n v E 0
  have hc := completed_notin_epochsTrace n v E 0
  have hiters : iters (runEvents E n v) = List.range' 1 (E * n) := by
    rw [runEvents, iters]
    rw [List.filterMap_cons]
    show iters (epochsTrace n v 0 E ++ [Event.trainingCompleted]) = _
    rw [iters_append, iters_epochsTrace]
    simp [iters]
  refine ⟨?_, ?_, ⟨epochsTrace n v 0 E, rfl, hs, hc⟩, hiters, ?_⟩
  · rw [runEvents, List.count_cons_self, List.count_append,
      List.count_eq_zero.mpr hs]
    simp
  · rw [runEvents, List.count_cons_of_ne, List.count_append,
      List.count_eq_zero.mpr hc]
    · simp
    · simp
  · rw [hiters]
    exact List.pairwise_lt_range' 1 (E * n)

/-! The update / validation closures. -/

theorem training_update_lastEpoch {P G OS O : Type} (env : Env P G OS O)
    (cfg : LrConfig) (st : RunState P G OS) (b : Batch) :
    (training_update_function env cfg st b).1.lastEpoch = st.lastEpoch + 1 := rfl

theorem iterUpdate_lastEpoch {P G OS O : Type} (env : Env P G OS O)
    (cfg : LrConfig) (b : Batch) :
    ∀ (k : ℕ) (st : RunState P G OS),
      (iterUpdate env cfg b k st).lastEpoch = st.lastEpoch + k := by
  intro k
  induction k with
  | zero => intro st; rfl
  | succ m ih =>
      intro st
      rw [iterUpdate, ih, training_update_lastEpoch]
      omega

/-- C4: the learning rate is multiplied by `decay_percent` once every
`decay_step` scheduler steps, is monotonically non-increasing (for a decay
factor between 0 and 1 and a non-negative base rate), the scheduler counter
advances exactly once per update-function call and never on a
validation-function call, and in the scenario `decay_step=2`,
`decay_percent=0.1`, base LR `1.0`, the LR after 4 update steps is `0.01`. -/
theorem lr_decay_schedule {P G OS O : Type} (env : Env P G OS O)
    (cfg : LrConfig) (hd : 0 < cfg.decay_step) (h0 : 0 ≤ cfg.decay_percent)
    (h1 : cfg.decay_percent ≤ 1) (hb : 0 ≤ cfg.baseLr) :
    (∀ (st : RunState P G OS) (b : Batch),
        (training_update_function env cfg st b).1.lastEpoch = st.lastEpoch + 1) ∧
    (∀ (st : RunState P G OS) (b : Batch),
        (validation_inference_function env st b).1.lastEpoch = st.lastEpoch) ∧
    (∀ k, stepLrValue cfg (k + cfg.decay_step) =
        cfg.decay_percent * stepLrValue cfg k) ∧
    (∀ k, stepLrValue cfg (k + 1) ≤ stepLrValue cfg k) ∧
    (∀ (st : RunState P G OS) (b : Batch), st.lastEpoch = 0 →
        stepLrValue ⟨2, 1/10, 1⟩ ((iterUpdate env ⟨2, 1/10, 1⟩ b 4 st).lastEpoch) =
          1/100) := by
  refine ⟨fun st b => rfl, fun st b => rfl, ?_, ?_, ?_⟩
  · intro k
    unfold stepLrValue
    rw [Nat.add_div_right k hd, pow_succ]
    ring
  · intro k
    unfold stepLrValue
    have hdiv : k / cfg.decay_step ≤ (k + 1) / cfg.decay_step :=
      Nat.div_le_div_right (Nat.le_succ k)
    exact mul_le_mul_of_nonneg_left (pow_le_pow_of_le_one h0 h1 hdiv) hb
  · intro st b h
    rw [iterUpdate_lastEpoch, h]
    norm_num [stepLrValue]

/-- Witness for `lr_decay_schedule` at the configuration of the spec's
scenario. -/
theorem lr_decay_schedule_witness :
    stepLrValue ⟨2, 1/10, 1⟩ ((iterUpdate envU ⟨2, 1/10, 1⟩ bU 4 stU).lastEpoch) =
      1/100 :=
  (lr_decay_schedule envU ⟨2, 1/10, 1⟩ (by norm_num) (by norm_num) (by norm_num)
    (by norm_num)).2.2.2.2 stU bU rfl

/-- C5: the validation function mutates neither the model parameters, the
optimizer state, the accumulated gradients, nor the scheduler counter;
running it twice on the same batch with no intervening training step
produces the identical loss value, and the parameters are identical before
and after each call. -/
theorem validation_pure {P G OS O : Type} (env : Env P G OS O)
    (st : RunState P G OS) (b : Batch) :
    (validation_inference_function env st b).1.params = st.params ∧
    (validation_inference_function env st b).1.optState = st.optState ∧
    (validation_inference_function env st b).1.grads = st.grads ∧
    (validation_inference_function env st b).1.lastEpoch = st.lastEpoch ∧
    (validation_inference_function env
        (validation_inference_function env st b).1 b).1.params = st.params ∧
    (validation_inference_function env
        (validation_inference_function env st b).1 b).2.2 =
      (validation_inference_function env st b).2.2 :=
  ⟨rfl, rfl, rfl, rfl, rfl, rfl⟩

/-- C3 counterexample: the update function does not return the raw model
output — it returns the softmax-normalized first component of the forward
pass (`softmaxed_predictions`), which in this concrete environment differs
from the raw output (`predictions`) the loss is computed on. -/
theorem update_returns_softmaxed_not_raw :
    (training_update_function envC ⟨2, 1/10, 1⟩ stC ⟨[[0]], [[0]]⟩).2.2.1 ≠
      (envC.forwardFn stC.params ⟨[[0]], [[0]]⟩).2 := by
  decide

/-- C3 (amended): for every training batch the update function performs, in
this order: set train mode, advance the LR decay policy by one step, clear
accumulated gradients, compute the model output, compute the scalar loss
against the target flattened over batch×position, back-propagate, apply one
optimization step; and it returns the pair (softmax-normalized model output,
scalar loss value). -/
theorem training_update_order_and_return {P G OS O : Type} (env : Env P G OS O)
    (cfg : LrConfig) (st : RunState P G OS) (b : Batch) :
    (training_update_function env cfg st b).2.1 =
      [Action.setTrain, Action.lrStep, Action.zeroGrad, Action.forwardPass,
       Action.computeLoss, Action.backwardPass, Action.optStep] ∧
    (training_update_function env cfg st b).1.mode = Mode.trainMode ∧
    (training_update_function env cfg st b).1.lastEpoch = st.lastEpoch + 1 ∧
    (training_update_function env cfg st b).1.grads =
      some (env.gradFn st.params b) ∧
    (training_update_function env cfg st b).1.params =
      (env.adamStep st.optState st.params (stepLrValue cfg (st.lastEpoch + 1))
        (env.gradFn st.params b)).2 ∧
    (training_update_function env cfg st b).2.2.1 =
      (env.forwardFn st.params b).1 ∧
    (training_update_function env cfg st b).2.2.2 =
      crossEntropyLoss env.ce (env.forwardFn st.params b).2.flatten
        b.trg.flatten :=
  ⟨rfl, rfl, rfl, rfl, rfl, rfl, rfl⟩

/-! The loss computation. -/

theorem flatten_length_uniform {α : Type} :
    ∀ (l : List (List α)) (B L : ℕ), l.length = B → (∀ r ∈ l, r.length = L) →
      l.flatten.length = B * L := by
  intro l
  induction l with
  | nil =>
      intro B L hB _
      simp [← hB]
  | cons r rest ih =>
      intro B L hB hrows
      rcases B with _ | B1
      · exact absurd hB (by simp)
      · have hr : r.length = L := hrows r (List.mem_cons_self r rest)
        have hrest : rest.flatten.length = B1 * L := by
          apply ih
          · simpa using hB
          · intro s hs
            exact hrows s (List.mem_cons_of_mem r hs)
        simp [List.flatten_cons, hr, hrest]
        ring

theorem zip_map_sum {α β : Type} (f : α → β → ℚ) (d1 : α) (d2 : β) :
    ∀ (xs : List α) (ys : List β), xs.length = ys.length →
      ((xs.zip ys).map fun p => f p.1 p.2).sum =
        ((List.range xs.length).map fun k => f (xs.getD k d1) (ys.getD k d2)).sum := by
  intro xs
  induction xs with
  | nil =>
      intro ys _
      simp
  | cons x xs ih =>
      intro ys hlen
      rcases ys with _ | ⟨y, ys⟩
      · exact absurd hlen (by simp)
      · have hlen2 : xs.length = ys.length := by simpa using hlen
        rw [List.zip_cons_cons, List.map_cons, List.sum_cons, ih ys hlen2]
        rw [List.length_cons, List.range_succ_eq_map, List.map_cons, List.sum_cons]
        rw [List.map_map]
        rfl

/-- C8: for every batch whose target and raw-prediction tensors both have
`B` rows of `L` positions, the scalar loss of both the update function and
the validation function is the same value: the per-token average of the
per-position cross entropy over all `B*L` positions of the batch flattened
over batch×position — no position is excluded. -/
theorem loss_per_token_average {P G OS O : Type} (env : Env P G OS O)
    (cfg : LrConfig) (st : RunState P G OS) (b : Batch) (B L : ℕ)
    (hT : b.trg.length = B) (hTr : ∀ r ∈ b.trg, r.length = L)
    (hP : (env.forwardFn st.params b).2.length = B)
    (hPr : ∀ r ∈ (env.forwardFn st.params b).2, r.length = L) :
    (training_update_function env cfg st b).2.2.2 =
      (validation_inference_function env st b).2.2 ∧
    (training_update_function env cfg st b).2.2.2 =
      (((List.range (B * L)).map fun k =>
          env.ce ((env.forwardFn st.params b).2.flatten.getD k [])
            (b.trg.flatten.getD k 0)).sum) / ((B * L : ℕ) : ℚ) := by
  refine ⟨rfl, ?_⟩
  have hfp : (env.forwardFn st.params b).2.flatten.length = B * L :=
    flatten_length_uniform _ B L hP hPr
  have hft : b.trg.flatten.length = B * L :=
    flatten_length_uniform _ B L hT hTr
  show crossEntropyLoss env.ce (env.forwardFn st.params b).2.flatten
      b.trg.flatten = _
  rw [crossEntropyLoss,
    zip_map_sum env.ce [] 0 _ _ (hfp.trans hft.symm), hfp,
    List.length_zip, hfp, hft, Nat.min_self]

/-- Witness for `loss_per_token_average`: in the concrete environment the
training and validation losses coincide. -/
theorem loss_per_token_average_witness :
    (training_update_function envW ⟨2, 1/10, 1⟩ stU bW).2.2.2 =
      (validation_inference_function envW stU bW).2.2 :=
  (loss_per_token_average envW ⟨2, 1/10, 1⟩ stU bW 1 2 (by decide) (by decide)
    (by decide) (by decide)).1

/-! The two periodic hooks over the event trace. -/

theorem iters_runEvents (E n v : ℕ) :
    iters (runEvents E n v) = List.range' 1 (E * n) := by
  rw [runEvents, iters, List.filterMap_cons]
  show iters (epochsTrace n v 0 E ++ [Event.trainingCompleted]) = _
  rw [iters_append, iters_epochsTrace]
  simp [iters]

theorem logRun_factor {O : Type} (L W : ℕ) (h : ℕ → O × ℚ) :
    ∀ (t : List Event) (st : LogState O),
      t.foldl (logStep L W h) st = (iters t).foldl (logIter L W h) st := by
  intro t
  induction t with
  | nil => intro st; rfl
  | cons e rest ih =>
      intro st
      cases e with
      | iterationCompleted i =>
          exact ih (logStep L W h st (Event.iterationCompleted i))
      | trainingStarted => exact ih st
      | validationCompleted => exact ih st
      | trainingCompleted => exact ih st

theorem ckptFold_factor {P : Type} (S : ℕ) (path : String) (pA : ℕ → P) :
    ∀ (t : List Event), Event.trainingCompleted ∉ t →
      ∀ (st : CkptState P),
        t.foldl (ckptStep S path pA) st = (iters t).foldl (ckptIter S path pA) st := by
  intro t
  induction t with
  | nil => intro _ st; rfl
  | cons e rest ih =>
      intro hnot st
      have hrest : Event.trainingCompleted ∉ rest := fun hm =>
        hnot (List.mem_cons_of_mem e hm)
      cases e with
      | iterationCompleted i =>
          exact ih hrest (ckptStep S path pA st (Event.iterationCompleted i))
      | trainingStarted => exact ih hrest st
      | validationCompleted => exact ih hrest st
      | trainingCompleted => exact absurd (List.mem_cons_self _ _) hnot

theorem logIters_range {O : Type} (L W : ℕ) (h : ℕ → O × ℚ) :
    ∀ (m it0 : ℕ) (E0 : List (ℕ × ℚ)),
      (List.range' (it0 + 1) m).foldl (logIter L W h)
          ⟨(List.range' 1 it0).map h, E0⟩ =
        ⟨(List.range' 1 (it0 + m)).map h,
         E0 ++ ((List.range' (it0 + 1) m).filter fun i => i % L == 0).map
            fun i => (i, sma W (((List.range' 1 i).map h).map fun x => x.2))⟩ := by
  intro m
  induction m with
  | zero =>
      intro it0 E0
      simp
  | succ k ih =>
      intro it0 E0
      have hhist : (List.range' 1 it0).map h ++ [h (it0 + 1)] =
          (List.range' 1 (it0 + 1)).map h := by
        rw [List.range'_1_concat, List.map_append]
        simp [Nat.add_comm]
      have harith : it0 + 1 + k = it0 + (k + 1) := by omega
      cases hb : ((it0 + 1) % L == 0) with
      | true =>
          have hstep : logIter L W h ⟨(List.range' 1 it0).map h, E0⟩ (it0 + 1) =
              ⟨(List.range' 1 (it0 + 1)).map h,
               E0 ++ [(it0 + 1,
                 sma W (((List.range' 1 (it0 + 1)).map h).map fun x => x.2))]⟩ := by
            rw [logIter]
            show (if (it0 + 1) % L == 0 then _ else _) = _
            simp [hb, hhist]
          rw [List.range'_succ, List.foldl_cons, hstep,
            ih (it0 + 1)
              (E0 ++ [(it0 + 1, sma W (((List.range' 1 (it0 + 1)).map h).map fun x => x.2))]),
            harith, List.filter_cons]
          simp [hb, List.append_assoc]
      | false =>
          have hstep : logIter L W h ⟨(List.range' 1 it0).map h, E0⟩ (it0 + 1) =
              ⟨(List.range' 1 (it0 + 1)).map h, E0⟩ := by
            rw [logIter]
            show (if (it0 + 1) % L == 0 then _ else _) = _
            simp [hb, hhist]
          rw [List.range'_succ, List.foldl_cons, hstep, ih (it0 + 1) E0,
            harith, List.filter_cons]
          simp [hb]

theorem ckptIters_range {P : Type} (S : ℕ) (path : String) (pA : ℕ → P) :
    ∀ (m it0 : ℕ) (fs0 : FileSys P) (ws0 : List (ℕ × P)),
      (List.range' (it0 + 1) m).foldl (ckptIter S path pA) ⟨fs0, it0, ws0⟩ =
        ⟨(((List.range' (it0 + 1) m).filter fun i => i % S == 0).map
              fun i => (i, pA i)).foldl
            (fun fs w => save_checkpoint_hook w.2 path fs) fs0,
         it0 + m,
         ws0 ++ ((List.range' (it0 + 1) m).filter fun i => i % S == 0).map
            fun i => (i, pA i)⟩ := by
  intro m
  induction m with
  | zero =>
      intro it0 fs0 ws0
      simp
  | succ k ih =>
      intro it0 fs0 ws0
      have harith : it0 + 1 + k = it0 + (k + 1) := by omega
      cases hb : ((it0 + 1) % S == 0) with
      | true =>
          have hstep : ckptIter S path pA ⟨fs0, it0, ws0⟩ (it0 + 1) =
              ⟨save_checkpoint_hook (pA (it0 + 1)) path fs0, it0 + 1,
               ws0 ++ [(it0 + 1, pA (it0 + 1))]⟩ := by
            rw [ckptIter]
            show (if (it0 + 1) % S == 0 then _ else _) = _
            simp [hb]
          rw [List.range'_succ, List.foldl_cons, hstep,
            ih (it0 + 1) (save_checkpoint_hook (pA (it0 + 1)) path fs0)
              (ws0 ++ [(it0 + 1, pA (it0 + 1))]),
            harith, List.filter_cons]
          simp [hb, List.append_assoc]
      | false =>
          have hstep : ckptIter S path pA ⟨fs0, it0, ws0⟩ (it0 + 1) =
              ⟨fs0, it0 + 1, ws0⟩ := by
            rw [ckptIter]
            show (if (it0 + 1) % S == 0 then _ else _) = _
            simp [hb]
          rw [List.range'_succ, List.foldl_cons, hstep, ih (it0 + 1) fs0 ws0,
            harith, List.filter_cons]
          simp [hb]

theorem foldl_save_ne {P : Type} (path : String) :
    ∀ (ws : List (ℕ × P)) (fs0 : FileSys P) (q : String), q ≠ path →
      (ws.foldl (fun fs w => save_checkpoint_hook w.2 path fs) fs0) q = fs0 q := by
  intro ws
  induction ws with
  | nil => intro fs0 q _; rfl
  | cons w ws ih =>
      intro fs0 q hq
      rw [List.foldl_cons, ih _ _ hq]
      simp [save_checkpoint_hook, hq]

theorem sma_range' (W i : ℕ) (g : ℕ → ℚ) :
    sma W ((List.range' 1 i).map g) =
      (((List.range' (i - min W i + 1) (min W i)).map g).sum) /
        ((min W i : ℕ) : ℚ) := by
  have hdrop : ((List.range' 1 i).map g).drop
        (((List.range' 1 i).map g).length - W) =
      (List.range' (i - min W i + 1) (min W i)).map g := by
    rw [List.length_map, List.length_range']
    have hsplit : List.range' 1 i =
        List.range' 1 (i - W) ++ List.range' (1 + (i - W)) (min W i) := by
      rw [List.range'_append_1]
      congr 1
      omega
    rw [hsplit, List.map_append,
      List.drop_left' (by rw [List.length_map, List.length_range'])]
    congr 2
    omega
  show (((List.range' 1 i).map g).drop
        (((List.range' 1 i).map g).length - W)).sum /
      ((((List.range' 1 i).map g).drop
        (((List.range' 1 i).map g).length - W)).length : ℚ) = _
  rw [hdrop, List.length_map, List.length_range']

/-- C2: with `log_interval = L` and the source's fixed `window_size = 10`,
the training moving-average logger records exactly one loss per training
iteration, and recomputes and emits a value exactly at the iterations with
`iteration mod L == 0`; the emitted value at iteration `i` is the arithmetic
mean of the last `min(10, i)` recorded losses. -/
theorem training_sma_log_characterization {O : Type} (L : ℕ) (hL : 0 < L)
    (h : ℕ → O × ℚ) (E n v : ℕ) :
    (logRun L 10 h (runEvents E n v)).history = (List.range' 1 (E * n)).map h ∧
    (logRun L 10 h (runEvents E n v)).emitted =
      ((List.range' 1 (E * n)).filter fun i => i % L == 0).map
        fun i => (i, (((List.range' (i - min 10 i + 1) (min 10 i)).map
            fun j => (h j).2).sum) / ((min 10 i : ℕ) : ℚ)) := by
  have hrun : logRun L 10 h (runEvents E n v) =
      ⟨(List.range' 1 (0 + E * n)).map h,
       [] ++ ((List.range' (0 + 1) (E * n)).filter fun i => i % L == 0).map
          fun i => (i, sma 10 (((List.range' 1 i).map h).map fun x => x.2))⟩ := by
    rw [logRun, logRun_factor, iters_runEvents]
    exact logIters_range L 10 h (E * n) 0 []
  constructor
  · rw [hrun]
    norm_num
  · rw [hrun]
    show (((List.range' (0 + 1) (E * n)).filter fun i => i % L == 0).map
        fun i => (i, sma 10 (((List.range' 1 i).map h).map fun x => x.2))) = _
    rw [Nat.zero_add]
    apply List.map_congr_left
    intro i _
    rw [List.map_map, sma_range']
    rfl

/-- Witness for `training_sma_log_characterization` with `log_interval = 1`
over a one-epoch run of two batches. -/
theorem training_sma_log_characterization_witness :
    (logRun 1 10 histU (runEvents 1 2 0)).emitted =
      ((List.range' 1 (1 * 2)).filter fun i => i % 1 == 0).map
        fun i => (i, (((List.range' (i - min 10 i + 1) (min 10 i)).map
            fun j => (histU j).2).sum) / ((min 10 i : ℕ) : ℚ)) :=
  (training_sma_log_characterization 1 (by decide) histU 1 2 0).2

/-- C1: with `save_interval = S`, the checkpoint writes of a run are exactly
one write at every `TRAINING_ITERATION_COMPLETED` whose iteration satisfies
`iteration mod S == 0` plus one unconditional write at
`TRAINING_COMPLETED`, each persisting the model parameters current at that
moment; afterwards the configured path holds the final parameters,
overwriting whatever was there, and no other path was touched. -/
theorem checkpoint_saves_characterization {P : Type} (S : ℕ) (hS : 0 < S)
    (path : String) (pA : ℕ → P) (fs0 : FileSys P) (E n v : ℕ) :
    (ckptRun S path pA fs0 (runEvents E n v)).writes =
      (((List.range' 1 (E * n)).filter fun i => i % S == 0).map
          fun i => (i, pA i)) ++ [(E * n, pA (E * n))] ∧
    (ckptRun S path pA fs0 (runEvents E n v)).fs =
      fun q => if q = path then some (pA (E * n)) else fs0 q := by
  have hbody : (epochsTrace n v 0 E).foldl (ckptStep S path pA) ⟨fs0, 0, []⟩ =
      ⟨(((List.range' (0 + 1) (E * n)).filter fun i => i % S == 0).map
            fun i => (i, pA i)).foldl
          (fun fs w => save_checkpoint_hook w.2 path fs) fs0,
       0 + E * n,
       [] ++ ((List.range' (0 + 1) (E * n)).filter fun i => i % S == 0).map
          fun i => (i, pA i)⟩ := by
    rw [ckptFold_factor S path pA _ (completed_notin_epochsTrace n v E 0),
      iters_epochsTrace]
    exact ckptIters_range S path pA (E * n) 0 fs0 []
  have hfull : ckptRun S path pA fs0 (runEvents E n v) =
      ckptStep S path pA
        ((epochsTrace n v 0 E).foldl (ckptStep S path pA) ⟨fs0, 0, []⟩)
        Event.trainingCompleted := by
    rw [ckptRun, runEvents, List.foldl_cons]
    show (epochsTrace n v 0 E ++ [Event.trainingCompleted]).foldl
        (ckptStep S path pA) ⟨fs0, 0, []⟩ = _
    rw [List.foldl_append]
    rfl
  rw [hfull, hbody]
  constructor
  · show ([] ++ ((List.range' (0 + 1) (E * n)).filter fun i => i % S == 0).map
        (fun i => (i, pA i))) ++ [(0 + E * n, pA (0 + E * n))] = _
    norm_num
  · show save_checkpoint_hook (pA (0 + E * n)) path
        ((((List.range' (0 + 1) (E * n)).filter fun i => i % S == 0).map
              fun i => (i, pA i)).foldl
            (fun fs w => save_checkpoint_hook w.2 path fs) fs0) = _
    funext q
    by_cases hq : q = path
    · subst hq
      simp [save_checkpoint_hook]
    · simp only [save_checkpoint_hook, if_neg hq]
      rw [foldl_save_ne path _ fs0 q hq]

/-- Witness for `checkpoint_saves_characterization`: the spec scenario with
`save_interval = 2` over one epoch of three batches writes at iteration 2
and at `TRAINING_COMPLETED` (iteration 3). -/
theorem checkpoint_saves_characterization_witness :
    (ckptRun 2 "model.pt" (fun i => i) (fun _ => none) (runEvents 1 3 0)).writes =
      (((List.range' 1 (1 * 3)).filter fun i => i % 2 == 0).map
          fun i => (i, i)) ++ [(1 * 3, 1 * 3)] :=
  (checkpoint_saves_characterization 2 (by decide) "model.pt" (fun i => i)
    (fun _ => none) 1 3 0).1

/-- C7: the restore-checkpoint hook is registered on `TRAINING_STARTED`
only, and that event occurs exactly once, as the very first event of the
run — before any update; when a checkpoint exists at the path the hook
loads it into the parameters, and when none exists the parameters are kept
with no error. -/
theorem restore_hook_once_and_total {P : Type} (E n v : ℕ) (path : String)
    (fs : FileSys P) (p q : P) :
    (runEvents E n v).count Event.trainingStarted = 1 ∧
    (runEvents E n v).head? = some Event.trainingStarted ∧
    (fs path = some q → restore_checkpoint_hook path fs p = q) ∧
    (fs path = none → restore_checkpoint_hook path fs p = p) := by
  refine ⟨?_, rfl, ?_, ?_⟩
  · rw [runEvents, List.count_cons_self, List.count_append,
      List.count_eq_zero.mpr (started_notin_epochsTrace n v E 0)]
    simp
  · intro hsome
    unfold restore_checkpoint_hook
    rw [hsome]
  · intro hnone
    unfold restore_checkpoint_hook
    rw [hnone]

/-- Witness for `restore_hook_once_and_total`: an existing checkpoint is
loaded. -/
theorem restore_hook_once_and_total_witness :
    restore_checkpoint_hook "model.pt" (fun _ => some (7 : ℕ)) 0 = 7 :=
  (restore_hook_once_and_total 1 1 0 "model.pt" (fun _ => some 7) 0 7).2.2.1 rfl

/-! Startup validation and configuration errors. -/

theorem mainStartup_none (cfg : MainConfig)
    (h : parseUnits cfg.encoder_units = none ∨
      parseUnits cfg.decoder_units = none) :
    mainStartup cfg = none := by
  unfold mainStartup
  rcases h with h | h
  · rw [h]
  · rw [h]
    cases parseUnits cfg.encoder_units <;> rfl

theorem hookEval_zero (L S C i : ℕ) (h : L = 0 ∨ S = 0 ∨ C = 0) :
    hookEval L S C i = none := by
  by_cases hL : L = 0
  · simp [hookEval, pymod, hL]
  · by_cases hS : S = 0
    · simp [hookEval, pymod, hL, hS]
    · by_cases hC : C = 0
      · simp [hookEval, pymod, hL, hS, hC]
      · rcases h with h | h | h <;> contradiction

theorem hookEval_pos (L S C i : ℕ) (hL : 0 < L) (hS : 0 < S) (hC : 0 < C) :
    hookEval L S C i = some true := by
  simp [hookEval, pymod, Nat.pos_iff_ne_zero.mp hL, Nat.pos_iff_ne_zero.mp hS,
    Nat.pos_iff_ne_zero.mp hC]

theorem runChecked_ok (L S C : ℕ) (hL : 0 < L) (hS : 0 < S) (hC : 0 < C) :
    ∀ t : List Event, runChecked L S C t = Except.ok () := by
  intro t
  induction t with
  | nil => rfl
  | cons e rest ih =>
      cases e with
      | iterationCompleted i =>
          show (match hookEval L S C i with
            | none => Except.error i
            | some _ => runChecked L S C rest) = Except.ok ()
          rw [hookEval_pos L S C i hL hS hC]
          exact ih
      | trainingStarted => exact ih
      | validationCompleted => exact ih
      | trainingCompleted => exact ih

theorem runEvents_two_head (E1 n1 v : ℕ) :
    runEvents (E1 + 1) (n1 + 1) v =
      Event.trainingStarted :: Event.iterationCompleted 1 ::
        (((((List.range n1).map fun j =>
              Event.iterationCompleted (0 + (j + 1) + 1)) ++
            List.replicate v Event.validationCompleted) ++
          epochsTrace (n1 + 1) v (0 + (n1 + 1)) E1) ++
         [Event.trainingCompleted]) := by
  rw [runEvents, epochsTrace, epochTrace, List.range_succ_eq_map]
  simp [List.map_map, List.cons_append, List.append_assoc, Function.comp]

/-- C9 counterexample: an invalid interval value (`log_interval = 0`) does
not make the program fail at startup before any batch is processed —
startup succeeds, the first batch is processed, and only the first
`TRAINING_ITERATION_COMPLETED` cadence evaluation raises. -/
theorem zero_interval_not_startup_failure :
    programRun ⟨"512,512", "512,512", 0, 10, 10⟩ 1 1 1 =
      RunOutcome.hookFailure 1 ∧
    RunOutcome.hookFailure 1 ≠ RunOutcome.startupFailure := by
  exact ⟨rfl, by decide⟩

/-- C9 (amended): a malformed comma-separated unit list fails at startup,
before any batch is processed; an interval value of 0, however, fails only
at the first `TRAINING_ITERATION_COMPLETED` event, after the first batch
has been processed, and positive interval values never fail. -/
theorem config_error_timing (cfg : MainConfig) (E n v : ℕ) :
    ((parseUnits cfg.encoder_units = none ∨
        parseUnits cfg.decoder_units = none) →
      programRun cfg E n v = RunOutcome.startupFailure) ∧
    ((cfg.log_interval = 0 ∨ cfg.save_interval = 0 ∨
        cfg.compare_interval = 0) →
      mainStartup cfg ≠ none → 1 ≤ E → 1 ≤ n →
      programRun cfg E n v = RunOutcome.hookFailure 1) ∧
    (0 < cfg.log_interval → 0 < cfg.save_interval → 0 < cfg.compare_interval →
      mainStartup cfg ≠ none → programRun cfg E n v = RunOutcome.completed) := by
  refine ⟨?_, ?_, ?_⟩
  · intro hpar
    unfold programRun
    rw [mainStartup_none cfg hpar]
  · intro hz hms hE hn
    obtain ⟨E1, rfl⟩ : ∃ E1, E = E1 + 1 := ⟨E - 1, by omega⟩
    obtain ⟨n1, rfl⟩ : ∃ n1, n = n1 + 1 := ⟨n - 1, by omega⟩
    cases hm : mainStartup cfg with
    | none => exact absurd hm hms
    | some u =>
        obtain ⟨rest, hre⟩ : ∃ rest, runEvents (E1 + 1) (n1 + 1) v =
            Event.trainingStarted :: Event.iterationCompleted 1 :: rest :=
          ⟨_, runEvents_two_head E1 n1 v⟩
        unfold programRun
        rw [hm, hre]
        show (match runChecked cfg.log_interval cfg.save_interval
            cfg.compare_interval (Event.trainingStarted ::
              Event.iterationCompleted 1 :: rest) with
          | Except.error i => RunOutcome.hookFailure i
          | Except.ok _ => RunOutcome.completed) = _
        show (match (match hookEval cfg.log_interval cfg.save_interval
            cfg.compare_interval 1 with
          | none => Except.error 1
          | some _ => runChecked cfg.log_interval cfg.save_interval
              cfg.compare_interval rest) with
          | Except.error i => RunOutcome.hookFailure i
          | Except.ok _ => RunOutcome.completed) = _
        rw [hookEval_zero _ _ _ 1 hz]
  · intro h1 h2 h3 hms
    cases hm : mainStartup cfg with
    | none => exact absurd hm hms
    | some u =>
        unfold programRun
        rw [hm, runChecked_ok _ _ _ h1 h2 h3]

/-- Witness for `config_error_timing`: a well-formed configuration with
positive intervals runs to completion. -/
theorem config_error_timing_witness :
    programRun ⟨"512,512", "512,512", 2, 10, 10⟩ 1 1 1 =
      RunOutcome.completed :=
  (config_error_timing ⟨"512,512", "512,512", 2, 10, 10⟩ 1 1 1).2.2
    (by decide) (by decide) (by decide) (by decide)

/-- C10: the vocabulary-size arguments handed to the model are
`len(vocab.freqs)` — the number of distinct tokens of the whole corpus —
independent of the `max_size` cap and the `min_freq` cutoff, which filter
only the vocabulary index; concretely, a corpus of 3 distinct
once-occurring tokens built with `min_freq=3, max_size=1` yields a model
vocabulary-size argument of 3 while the actual index is empty. -/
theorem vocab_size_from_freqs :
    (∀ (corpus : List (List ℕ)) (mf ms : ℕ),
        vocab_size_arg corpus mf ms = corpus.flatten.dedup.length) ∧
    (∀ (corpus : List (List ℕ)) (mf ms mf2 ms2 : ℕ),
        vocab_size_arg corpus mf ms = vocab_size_arg corpus mf2 ms2) ∧
    vocab_size_arg [[0, 1, 2]] 3 1 = 3 ∧
    (build_vocab [[0, 1, 2]] 3 1).itos.length = 0 := by
  refine ⟨?_, ?_, by decide, by decide⟩
  · intro corpus mf ms
    simp [vocab_size_arg, build_vocab]
  · intro corpus mf ms mf2 ms2
    simp [vocab_size_arg, build_vocab]

end TrainPy
